import Mathlib

/-!
Verification of the paper-management service (Express + Prisma backend).

The development shallowly embeds the relevant source files:
* `src/middleware.js` (query / body / id validators),
* `src/database.js` (Prisma-backed CRUD operations and the query engine).

JavaScript numbers reaching the validators come from JSON bodies or from
`Number(string)` conversion; they are modelled as exact rationals in
unnormalized `num / den` form (`JsNum`; every JSON numeral and every
finite double is such a rational; `NaN` and `±Infinity` are modelled as
parse failure `none`, which gives identical validator outcomes because
every validator first demands `Number.isInteger`, false on all three).
The Prisma store is modelled as
two arenas of records plus an explicit paper↔author link list, following
the relational schema (implicit many-to-many join table).
-/

namespace PaperMgmt

/-- ASCII model of the whitespace stripped by JavaScript `ToNumber` on
strings (space, tab, LF, VT, FF, CR). -/
def isJsWs (c : Char) : Bool :=
  c.toNat == 32 || c.toNat == 9 || c.toNat == 10 ||
  c.toNat == 11 || c.toNat == 12 || c.toNat == 13

/-- Decimal digit test, `'0'..'9'`. -/
def isDigitChar (c : Char) : Bool :=
  48 ≤ c.toNat && c.toNat ≤ 57

/-- Strip leading and trailing JS whitespace. -/
def trimWs (l : List Char) : List Char :=
  ((l.dropWhile isJsWs).reverse.dropWhile isJsWs).reverse

/-- Split a character list into its maximal leading run of decimal digits
and the remainder (the `DecimalDigits` production). -/
def splitDigits : List Char → List Char × List Char
  | [] => ([], [])
  | c :: r =>
    if isDigitChar c then
      let p := splitDigits r
      (c :: p.1, p.2)
    else ([], c :: r)

/-- Value of a decimal digit string. -/
def natOfDigits (l : List Char) : Nat :=
  l.foldl (fun acc c => 10 * acc + (c.toNat - 48)) 0

/-- An exact rational `num / den` in unnormalized form; the parser only
ever builds `den` as a positive power of ten, and all validator
arithmetic is integer cross-multiplication, so every concrete parse
reduces in the kernel (unlike `ℚ`, whose normalization does not). -/
structure JsNum where
  num : Int
  den : Nat
deriving DecidableEq

/-- The rational value a `JsNum` denotes. -/
def JsNum.toQ (x : JsNum) : ℚ :=
  (x.num : ℚ) / (x.den : ℚ)

/-- `n < x` for an integer bound (cross-multiplied). -/
def JsNum.gtInt (x : JsNum) (n : Int) : Bool :=
  n * (x.den : Int) < x.num

/-- `x ≤ n` for an integer bound. -/
def JsNum.leInt (x : JsNum) (n : Int) : Bool :=
  x.num ≤ n * (x.den : Int)

/-- `n ≤ x` for an integer bound. -/
def JsNum.geInt (x : JsNum) (n : Int) : Bool :=
  n * (x.den : Int) ≤ x.num

/-- The exact integer value (meaningful after an `isInteger` check). -/
def JsNum.toInt (x : JsNum) : Int :=
  x.num / (x.den : Int)

/-- Value of a digit in the given radix (hex letters in either case), if
it is one. -/
def digitValIn (radix : Nat) (c : Char) : Option Nat :=
  let v :=
    if isDigitChar c then some (c.toNat - 48)
    else if 97 ≤ c.toNat && c.toNat ≤ 122 then some (c.toNat - 97 + 10)
    else if 65 ≤ c.toNat && c.toNat ≤ 90 then some (c.toNat - 65 + 10)
    else none
  match v with
  | some n => if n < radix then some n else none
  | none => none

/-- Accumulating radix parser: every character must be a digit of the
radix. -/
def parseRadixAux (radix : Nat) (acc : Nat) : List Char → Option Nat
  | [] => some acc
  | c :: r =>
    match digitValIn radix c with
    | some d => parseRadixAux radix (radix * acc + d) r
    | none => none

/-- `HexIntegerLiteral` (resp. octal / binary) digit sequence: nonempty,
all digits of the radix. -/
def parseRadix (radix : Nat) (l : List Char) : Option Nat :=
  match l with
  | [] => none
  | _ => parseRadixAux radix 0 l

/-- `ExponentPart` after the `e`/`E`: an optional sign and a nonempty
digit sequence. -/
def parseExpDigits (l : List Char) : Option Int :=
  match l with
  | c :: r =>
    if c == '+' then
      if !r.isEmpty && r.all isDigitChar then some (Int.ofNat (natOfDigits r)) else none
    else if c == '-' then
      if !r.isEmpty && r.all isDigitChar then some (-Int.ofNat (natOfDigits r)) else none
    else
      if l.all isDigitChar then some (Int.ofNat (natOfDigits l)) else none
  | [] => none

/-- Scale `m / d` by `10 ^ e` for a signed exponent, staying in
integer arithmetic. -/
def applyExp (m : Int) (d : Nat) (e : Int) : JsNum :=
  if 0 ≤ e then ⟨m * ((10 ^ e.toNat : Nat) : Int), d⟩ else ⟨m, d * 10 ^ (-e).toNat⟩

/-- `StrUnsignedDecimalLiteral`: `Infinity` (modelled as `none`, see the
file comment) or `digits [. digits] [exponent]` / `. digits [exponent]`. -/
def parseUnsignedDec (l : List Char) : Option JsNum :=
  if l == "Infinity".data then none
  else
    let p := splitDigits l
    let intDs := p.1
    match p.2 with
    | [] => if intDs.isEmpty then none else some ⟨(natOfDigits intDs : Int), 1⟩
    | '.' :: r2 =>
      let f := splitDigits r2
      let fracDs := f.1
      if intDs.isEmpty && fracDs.isEmpty then none
      else
        let m : Int := ((natOfDigits intDs * 10 ^ fracDs.length + natOfDigits fracDs : Nat) : Int)
        let d : Nat := 10 ^ fracDs.length
        match f.2 with
        | [] => some ⟨m, d⟩
        | 'e' :: r3 | 'E' :: r3 => (parseExpDigits r3).map (fun e => applyExp m d e)
        | _ => none
    | 'e' :: r2 | 'E' :: r2 =>
      if intDs.isEmpty then none
      else (parseExpDigits r2).map (fun e => applyExp ((natOfDigits intDs : Nat) : Int) 1 e)
    | _ => none

/-- `StrDecimalLiteral`: an optional sign in front of the unsigned
literal. -/
def jsSigned (l : List Char) : Option JsNum :=
  match l with
  | [] => none
  | c :: r =>
    if c == '-' then (parseUnsignedDec r).map (fun x => ⟨-x.num, x.den⟩)
    else if c == '+' then parseUnsignedDec r
    else parseUnsignedDec l

/-- A trimmed, nonempty numeric string: radix-prefixed integer literal
(unsigned) or signed decimal literal. -/
def jsStrToNum (l : List Char) : Option JsNum :=
  match l with
  | c1 :: c2 :: r =>
    if c1 == '0' && (c2 == 'x' || c2 == 'X') then
      (parseRadix 16 r).map (fun n => (⟨(n : Int), 1⟩ : JsNum))
    else if c1 == '0' && (c2 == 'o' || c2 == 'O') then
      (parseRadix 8 r).map (fun n => (⟨(n : Int), 1⟩ : JsNum))
    else if c1 == '0' && (c2 == 'b' || c2 == 'B') then
      (parseRadix 2 r).map (fun n => (⟨(n : Int), 1⟩ : JsNum))
    else jsSigned l
  | _ => jsSigned l

/-- JavaScript `Number(string)`: trim whitespace, empty means `0`,
otherwise parse the numeric literal; `none` models `NaN` (and
`±Infinity`, see the file comment). -/
def jsNumber (s : String) : Option JsNum :=
  let t := trimWs s.data
  if t.isEmpty then some ⟨0, 1⟩ else jsStrToNum t

/-- `Number.isInteger` on the rational model of a finite double. -/
def jsIsInteger (x : JsNum) : Bool :=
  x.num % (x.den : Int) == 0

instance exceptDecEq {ε α : Type} [DecidableEq ε] [DecidableEq α] :
    DecidableEq (Except ε α) := fun x y =>
  match x, y with
  | .ok a, .ok b =>
    if h : a = b then isTrue (by rw [h]) else isFalse (fun hc => h (Except.ok.inj hc))
  | .error e, .error f =>
    if h : e = f then isTrue (by rw [h]) else isFalse (fun hc => h (Except.error.inj hc))
  | .ok _, .error _ => isFalse (fun hc => Except.noConfusion hc)
  | .error _, .ok _ => isFalse (fun hc => Except.noConfusion hc)

/-- Embeds `validateResourceId` (src/middleware.js): `Number(id)` must be
an integer greater than 0 (`isIntegerGreaterThan0`), else the request is
rejected with 400 and the message `Invalid ID format`.  `ok n` models
storing the parsed id and calling `next()`. -/
def validateResourceId (id : String) : Except String Nat :=
  match jsNumber id with
  | some x => if jsIsInteger x && x.gtInt 0 then Except.ok x.toInt.toNat
              else Except.error "Invalid ID format"
  | none => Except.error "Invalid ID format"

/-- Claim-side predicate, from the spec text: the id string parses to a
positive integer with no leading or trailing non-numeric characters and
no fractional part, i.e. it is a nonempty all-digit string of positive
value. -/
def specIdOk (s : String) : Bool :=
  !s.data.isEmpty && s.data.all isDigitChar && decide (0 < natOfDigits s.data)

/-- A JSON-derived JavaScript value, as received by the body validator
(numbers modelled as exact rationals, see the file comment). -/
inductive JSVal where
  | undefined
  | jnull
  | jstr (s : String)
  | jnum (x : JsNum)
  | jbool (b : Bool)
  | jarr (elems : List JSVal)
  | jobj (fields : List (String × JSVal))

/-- `null === v`. -/
def isNull : JSVal → Bool
  | .jnull => true
  | _ => false

/-- `"undefined" === typeof v`. -/
def isUndef : JSVal → Bool
  | .undefined => true
  | _ => false

/-- `isNonEmptyStringAfterTrim` (src/middleware.js) applied to a raw JS
value: a string whose trim is nonempty (JS `trim()` strips the same
whitespace set as `Number`, modelled by `trimWs`). -/
def isNonEmptyStringAfterTrim : JSVal → Bool
  | .jstr s => !(trimWs s.data).isEmpty
  | _ => false

/-- `isIntegerGreaterThan1900` (src/middleware.js) applied to a raw JS
value: `Number.isInteger(v) && 1900 < v`. -/
def isIntegerGreaterThan1900 : JSVal → Bool
  | .jnum x => jsIsInteger x && x.gtInt 1900
  | _ => false

/-- Property read on an object literal; JSON keeps the last duplicate
binding. -/
def lookupProp (fields : List (String × JSVal)) (k : String) : JSVal :=
  match fields.reverse.find? (fun kv => kv.1 == k) with
  | some kv => kv.2
  | none => .undefined

/-- `const { name } = v`: destructuring throws a `TypeError` on `null`
and `undefined` (`Except.error`), reads the property on objects, and
yields `undefined` on every other primitive. -/
def getProp : JSVal → String → Except Unit JSVal
  | .undefined, _ => .error ()
  | .jnull, _ => .error ()
  | .jobj fs, k => .ok (lookupProp fs k)
  | _, _ => .ok .undefined

/-- Total variant of property access used by the claim-side authors
checker (never invoked on `null`/`undefined` there). -/
def jsPropOrUndef (v : JSVal) (k : String) : JSVal :=
  match v with
  | .jobj fs => lookupProp fs k
  | _ => .undefined

/-- The `for (const \x7bname\x7d of authors)` loop of
`validatePaperInput`: pushes `Author name is required` at the first
blank name and breaks; destructuring a `null`/`undefined` element
throws. -/
def authorNamesMsgs : List JSVal → Except Unit (List String)
  | [] => .ok []
  | v :: r =>
    match getProp v "name" with
    | .error _ => .error ()
    | .ok nm =>
      if isNonEmptyStringAfterTrim nm then authorNamesMsgs r
      else .ok ["Author name is required"]

/-- The four fields destructured from `req.body` by the paper routes. -/
structure PaperBody where
  title : JSVal
  publishedIn : JSVal
  year : JSVal
  authors : JSVal

/-- The first half of `validatePaperInput` (src/middleware.js): the
sequential `errors.push` calls for title, venue and year, in source
order. -/
def scalarErrs (b : PaperBody) : List String :=
  let errors : List String := []
  let errors := if isNull b.title || !isNonEmptyStringAfterTrim b.title
                then errors ++ ["Title is required"] else errors
  let errors := if isNull b.publishedIn || !isNonEmptyStringAfterTrim b.publishedIn
                then errors ++ ["Published venue is required"] else errors
  if isNull b.year || isUndef b.year
  then errors ++ ["Published year is required"]
  else if !isIntegerGreaterThan1900 b.year
  then errors ++ ["Valid year after 1900 is required"]
  else errors

/-- Embeds `validatePaperInput` (src/middleware.js).  `Except.error`
models the `TypeError` thrown while destructuring a nullish element of
`authors` (surfaced as HTTP 500 by the error handler); `Except.ok`
carries the collected messages. -/
def validatePaperInput (b : PaperBody) : Except Unit (List String) :=
  let errors := scalarErrs b
  match b.authors with
  | .jarr l =>
    if l.length == 0 then .ok (errors ++ ["At least one author is required"])
    else
      match authorNamesMsgs l with
      | .error _ => .error ()
      | .ok more => .ok (errors ++ more)
  | _ => .ok (errors ++ ["At least one author is required"])

/-- Claim-side title messages. -/
def specTitleMsgs (v : JSVal) : List String :=
  if isNonEmptyStringAfterTrim v then [] else ["Title is required"]

/-- Claim-side venue messages. -/
def specVenueMsgs (v : JSVal) : List String :=
  if isNonEmptyStringAfterTrim v then [] else ["Published venue is required"]

/-- Claim-side year messages: missing/null gives the required message,
otherwise a non-integer-over-1900 gives the validity message. -/
def specYearMsgs (v : JSVal) : List String :=
  match v with
  | .undefined => ["Published year is required"]
  | .jnull => ["Published year is required"]
  | w => if isIntegerGreaterThan1900 w then [] else ["Valid year after 1900 is required"]

/-- Does the list contain a `null` or `undefined` element? -/
def hasNullishElem (l : List JSVal) : Bool :=
  l.any (fun v => isNull v || isUndef v)

/-- Claim-side authors messages: non-list/empty gives the required
message; otherwise a single name message when some entry has a blank
name. -/
def specAuthorsMsgs (v : JSVal) : List String :=
  match v with
  | .jarr [] => ["At least one author is required"]
  | .jarr l =>
    if l.all (fun a => isNonEmptyStringAfterTrim (jsPropOrUndef a "name")) then []
    else ["Author name is required"]
  | _ => ["At least one author is required"]

/-- Embeds `validateLimit` (src/middleware.js): absent defaults to 10;
otherwise `Number(limit)` must be an integer with `0 < n` and
`n ≤ 100`. -/
def validateLimit : Option String → Option Nat
  | none => some 10
  | some s =>
    match jsNumber s with
    | some x =>
      if (jsIsInteger x && x.gtInt 0) && (jsIsInteger x && x.leInt 100)
      then some x.toInt.toNat else none
    | none => none

/-- Embeds `validateOffset` (src/middleware.js): absent defaults to 0;
otherwise `Number(offset)` must be a non-negative integer. -/
def validateOffset : Option String → Option Nat
  | none => some 0
  | some s =>
    match jsNumber s with
    | some x =>
      if jsIsInteger x && x.geInt 0 then some x.toInt.toNat else none
    | none => none

/-- The `author` query parameter: a single string or a repeated
parameter (array of strings). -/
inductive AuthorParam where
  | single (v : String)
  | multi (vs : List String)
deriving DecidableEq

/-- Raw query string parameters of `GET /api/papers`. -/
structure PaperQuery where
  year : Option String
  publishedIn : Option String
  author : Option AuthorParam
  limit : Option String
  offset : Option String

/-- Validated query of `GET /api/papers` (parsed values written back to
`req.query`). -/
structure ValidatedPaperQuery where
  year : Option Int
  publishedIn : Option String
  author : Option AuthorParam
  limit : Nat
  offset : Nat
deriving DecidableEq

/-- `isNonEmptyStringWithoutTrim` on an actual string parameter. -/
def isNonEmptyStringWithoutTrimS (s : String) : Bool :=
  !s.data.isEmpty

/-- `isNonEmptyStringAfterTrim` on an actual string parameter. -/
def isNonEmptyStringAfterTrimS (s : String) : Bool :=
  !(trimWs s.data).isEmpty

/-- Embeds `validatePaperQueryParams` (src/middleware.js): checks year,
publishedIn, author, limit, offset in order, returning 400 with the
single generic message on the first failure. -/
def validatePaperQueryParams (q : PaperQuery) : Except String ValidatedPaperQuery :=
  let msg := "Invalid query parameter format"
  let yearStep : Except String (Option Int) :=
    match q.year with
    | none => .ok none
    | some s =>
      match jsNumber s with
      | some x =>
        if jsIsInteger x && x.gtInt 1900 then .ok (some x.toInt) else .error msg
      | none => .error msg
  match yearStep with
  | .error e => .error e
  | .ok yr =>
    let pubOk : Bool :=
      match q.publishedIn with
      | none => true
      | some s => isNonEmptyStringWithoutTrimS s
    if !pubOk then .error msg
    else
      let authorOk : Bool :=
        match q.author with
        | none => true
        | some (.single v) => isNonEmptyStringAfterTrimS v
        | some (.multi vs) => vs.all isNonEmptyStringAfterTrimS
      if !authorOk then .error msg
      else
        match validateLimit q.limit with
        | none => .error msg
        | some lim =>
          match validateOffset q.offset with
          | none => .error msg
          | some off => .ok ⟨yr, q.publishedIn, q.author, lim, off⟩

/-- Claim-side limit result: absent defaults to 10; a present value must
parse to an integer in `[1, 100]`. -/
def specLimitRes : Option String → Option Nat
  | none => some 10
  | some s =>
    match jsNumber s with
    | some x =>
      if jsIsInteger x && x.geInt 1 && x.leInt 100 then some x.toInt.toNat else none
    | none => none

/-- Claim-side offset result: absent defaults to 0; a present value must
parse to a non-negative integer. -/
def specOffsetRes : Option String → Option Nat
  | none => some 0
  | some s =>
    match jsNumber s with
    | some x =>
      if jsIsInteger x && x.geInt 0 then some x.toInt.toNat else none
    | none => none

/-- Is `n` a prefix of `h` (character lists)? -/
def charsPrefix : List Char → List Char → Bool
  | [], _ => true
  | _ :: _, [] => false
  | a :: as, b :: bs => a == b && charsPrefix as bs

/-- Is `n` a contiguous substring of `h`? -/
def charsInfix (n : List Char) : List Char → Bool
  | [] => n.isEmpty
  | b :: bs => charsPrefix n (b :: bs) || charsInfix n bs

/-- Prisma `contains` with `mode: "insensitive"`: case-insensitive
substring containment of `needle` in `hay` (ASCII folding model of the
database collation). -/
def substrCI (needle hay : String) : Bool :=
  charsInfix (needle.data.map Char.toLower) (hay.data.map Char.toLower)

/-- A stored author row: `email`/`affiliation` are nullable columns. -/
structure AuthorRec where
  id : Nat
  name : String
  email : Option String
  affiliation : Option String
deriving DecidableEq

/-- A stored paper row (scalar columns). -/
structure PaperRec where
  id : Nat
  title : String
  publishedIn : String
  year : Int
deriving DecidableEq

/-- The Prisma store: the two tables, the implicit many-to-many join
table as `(paperId, authorId)` pairs, and the autoincrement counters. -/
structure Store where
  papers : List PaperRec
  authors : List AuthorRec
  links : List (Nat × Nat)
  nextPaperId : Nat
  nextAuthorId : Nat
deriving DecidableEq

/-- Well-formedness of a store: row ids are unique and below the
autoincrement counters. -/
def Store.WF (s : Store) : Prop :=
  (s.authors.map AuthorRec.id).Nodup ∧
  (s.papers.map PaperRec.id).Nodup ∧
  (∀ a ∈ s.authors, a.id < s.nextAuthorId) ∧
  (∀ p ∈ s.papers, p.id < s.nextPaperId)

instance (s : Store) : Decidable s.WF := by
  unfold Store.WF
  infer_instance

/-- Author ids linked to a paper (rows of the join table for `pid`). -/
def linkedAuthorIds (s : Store) (pid : Nat) : List Nat :=
  (s.links.filter (fun l => l.1 == pid)).map (fun l => l.2)

/-- Ascending-id insertion used to model `orderBy: \x7bid: "asc"\x7d`. -/
def insertByKey {α : Type} (key : α → Nat) (a : α) : List α → List α
  | [] => [a]
  | b :: r => if key a ≤ key b then a :: b :: r else b :: insertByKey key a r

/-- Sort a row list by ascending id (stable insertion sort). -/
def sortByKey {α : Type} (key : α → Nat) : List α → List α
  | [] => []
  | a :: r => insertByKey key a (sortByKey key r)

/-- `findFirst` with a filter and `orderBy: \x7bid: "asc"\x7d`: the
matching row with the smallest id, if any. -/
def findMinMatch (p : AuthorRec → Bool) : List AuthorRec → Option AuthorRec
  | [] => none
  | a :: r =>
    match findMinMatch p r with
    | none => if p a then some a else none
    | some b => if p a && decide (a.id < b.id) then some a else some b

/-- A raw author field as destructured from the request body: absent
(`undefined`), `null`, or a string.  (Body validation guarantees the
`name` field is a non-blank string; `email`/`affiliation` are never
validated.) -/
inductive JField where
  | undefined
  | jnull
  | jstr (s : String)
deriving DecidableEq

/-- The value a field stores when the author row is created
(`undefined` and `null` both persist as NULL). -/
def JField.toOpt : JField → Option String
  | .undefined => none
  | .jnull => none
  | .jstr s => some s

/-- An author object inside a (validated) paper body. -/
structure AuthorInput where
  name : String
  email : JField
  affiliation : JField
deriving DecidableEq

/-- Prisma `where` semantics for one nullable column: an `undefined`
filter value is ignored (matches anything), `null` matches NULL, a
string matches that exact string. -/
def fieldMatch : JField → Option String → Bool
  | .undefined, _ => true
  | .jnull, none => true
  | .jnull, some _ => false
  | .jstr s, some t => s == t
  | .jstr _, none => false

/-- The `where: \x7bname, email, affiliation\x7d` filter of the author
lookup in `createPaper` / `updatePaper` (src/database.js). -/
def matchesWhere (c : AuthorInput) (a : AuthorRec) : Bool :=
  a.name == c.name && fieldMatch c.email a.email && fieldMatch c.affiliation a.affiliation

/-- The stored row created for a candidate author. -/
def recOf (c : AuthorInput) (i : Nat) : AuthorRec :=
  ⟨i, c.name, c.email.toOpt, c.affiliation.toOpt⟩

/-- One step of the author resolution loop of `createPaper` /
`updatePaper`: `findFirst` (lowest id) on the identity filter, else
`create`.  Returns the store and the resolved author id. -/
def resolveAuthor (s : Store) (c : AuthorInput) : Store × Nat :=
  match findMinMatch (matchesWhere c) s.authors with
  | some a => (s, a.id)
  | none =>
    ({ s with
        authors := s.authors ++ [recOf c s.nextAuthorId],
        nextAuthorId := s.nextAuthorId + 1 },
      s.nextAuthorId)

/-- The whole resolution loop, threading the store left to right. -/
def resolveAuthors (s : Store) : List AuthorInput → Store × List Nat
  | [] => (s, [])
  | c :: r =>
    let p := resolveAuthor s c
    let rest := resolveAuthors p.1 r
    (rest.1, p.2 :: rest.2)

/-- A validated paper body (title/venue non-blank strings, year an
integer over 1900, at least one author with a non-blank name). -/
structure PaperData where
  title : String
  publishedIn : String
  year : Int
  authors : List AuthorInput

/-- Database error outcomes surfaced to the routes. -/
inductive DbErr where
  | constraint (msg : String)
  | notFound
deriving DecidableEq

/-- Embeds `createPaper` (src/database.js): resolve every author, then
`paper.create` with `connect` on the resolved ids (connecting the same
id twice is idempotent, hence the dedup). -/
def createPaper (s : Store) (pd : PaperData) : Store × Nat :=
  let r := resolveAuthors s pd.authors
  let s1 := r.1
  let pid := s1.nextPaperId
  ({ s1 with
      papers := s1.papers ++ [⟨pid, pd.title, pd.publishedIn, pd.year⟩],
      links := s1.links ++ r.2.dedup.map (fun a => (pid, a)),
      nextPaperId := pid + 1 },
    pid)

/-- Embeds `updatePaper` (src/database.js): resolve the new author list,
then `paper.update` with `authors: \x7bset: [], connect: ids\x7d` —
clear all existing links of the paper and connect exactly the resolved
set; throws not-found when the paper row is missing (after the authors
were already resolved). -/
def updatePaper (s : Store) (pid : Nat) (pd : PaperData) : Store × Except DbErr Unit :=
  let r := resolveAuthors s pd.authors
  let s1 := r.1
  if s1.papers.any (fun p => p.id == pid) then
    ({ s1 with
        papers := s1.papers.map (fun p =>
          if p.id == pid then { p with title := pd.title, publishedIn := pd.publishedIn, year := pd.year }
          else p),
        links := s1.links.filter (fun l => l.1 ≠ pid) ++ r.2.dedup.map (fun a => (pid, a)) },
      .ok ())
  else (s1, .error .notFound)

/-- Embeds `deletePaper` (src/database.js): `paper.delete` removes the
paper row and, through the implicit join table, its own links; author
rows are untouched. -/
def deletePaper (s : Store) (pid : Nat) : Store × Except DbErr Unit :=
  if s.papers.any (fun p => p.id == pid) then
    ({ s with
        papers := s.papers.filter (fun p => p.id ≠ pid),
        links := s.links.filter (fun l => l.1 ≠ pid) },
      .ok ())
  else (s, .error .notFound)

/-- Embeds `deleteAuthor` (src/database.js): first `paper.findMany`
with `authors: \x7bevery: \x7bid\x7d\x7d` (every linked author of the
paper has the target id — vacuously true for a paper with no links);
if any such paper exists the deletion is refused; otherwise
`author.delete` removes the row and its links (not-found when the row
is missing). -/
def deleteAuthor (s : Store) (aid : Nat) : Store × Except DbErr Unit :=
  let soleAuthorPapers :=
    s.papers.filter (fun p => (linkedAuthorIds s p.id).all (fun x => x == aid))
  if 0 < soleAuthorPapers.length then
    (s, .error (.constraint "Cannot delete author: they are the only author of one or more papers"))
  else if s.authors.any (fun a => a.id == aid) then
    ({ s with
        authors := s.authors.filter (fun a => a.id ≠ aid),
        links := s.links.filter (fun l => l.2 ≠ aid) },
      .ok ())
  else (s, .error .notFound)

/-- Validated filters handed to `getAllPapers` (src/database.js). -/
structure PaperFilters where
  year : Option Int
  publishedIn : Option String
  author : Option AuthorParam
  limit : Option Nat
  offset : Option Nat
deriving DecidableEq

/-- Does the paper have a linked author whose name contains `v`
case-insensitively (`authors: \x7bsome: ...\x7d`)? -/
def hasAuthorMatching (s : Store) (pid : Nat) (v : String) : Bool :=
  s.authors.any (fun a => s.links.contains (pid, a.id) && substrCI v a.name)

/-- Does the paper have any linked author at all?  (`authors:
\x7bnone: \x7b\x7d\x7d` is its negation.) -/
def hasAnyAuthor (s : Store) (pid : Nat) : Bool :=
  s.authors.any (fun a => s.links.contains (pid, a.id))

/-- The `where` clause built by `getAllPapers`: exact year, insensitive
substring on the venue, and the author filter (an empty array filter
selects papers with no authors; a nonempty array is an AND of per-value
`some` clauses; a single string is one `some` clause). -/
def paperMatches (s : Store) (f : PaperFilters) (p : PaperRec) : Bool :=
  (match f.year with
   | none => true
   | some y => p.year == y) &&
  (match f.publishedIn with
   | none => true
   | some v => substrCI v p.publishedIn) &&
  (match f.author with
   | none => true
   | some (.single v) => hasAuthorMatching s p.id v
   | some (.multi []) => !hasAnyAuthor s p.id
   | some (.multi vs) => vs.all (fun v => hasAuthorMatching s p.id v))

/-- `take` with Prisma semantics: an absent `take` returns everything. -/
def takeOpt {α : Type} (n : Option Nat) (l : List α) : List α :=
  match n with
  | none => l
  | some k => l.take k

/-- `skip` with Prisma semantics: an absent `skip` skips nothing. -/
def dropOpt {α : Type} (n : Option Nat) (l : List α) : List α :=
  match n with
  | none => l
  | some k => l.drop k

/-- Response shape of `getAllPapers`. -/
structure PapersResult where
  papers : List PaperRec
  total : Nat
  limit : Option Nat
  offset : Option Nat
deriving DecidableEq

/-- The full filtered, ordered paper list (before `skip`/`take`). -/
def matchedPapers (s : Store) (f : PaperFilters) : List PaperRec :=
  (sortByKey PaperRec.id s.papers).filter (paperMatches s f)

/-- Embeds `getAllPapers` (src/database.js): filter, order by ascending
id, slice with `skip`/`take`, and return `total` as the length of the
rows that came back from `findMany`. -/
def getAllPapers (s : Store) (f : PaperFilters) : PapersResult :=
  let papers := takeOpt f.limit (dropOpt f.offset (matchedPapers s f))
  { papers := papers, total := papers.length, limit := f.limit, offset := f.offset }

/-- Validated filters handed to `getAllAuthors` (src/database.js). -/
structure AuthorFilters where
  name : Option String
  affiliation : Option String
  limit : Option Nat
  offset : Option Nat
deriving DecidableEq

/-- The `where` clause built by `getAllAuthors`: insensitive substring
on name and affiliation (a NULL affiliation column never contains
anything). -/
def authorMatches (f : AuthorFilters) (a : AuthorRec) : Bool :=
  (match f.name with
   | none => true
   | some v => substrCI v a.name) &&
  (match f.affiliation with
   | none => true
   | some v =>
     match a.affiliation with
     | some t => substrCI v t
     | none => false)

/-- Response shape of `getAllAuthors`. -/
structure AuthorsResult where
  authors : List AuthorRec
  total : Nat
  limit : Option Nat
  offset : Option Nat
deriving DecidableEq

/-- The full filtered, ordered author list (before `skip`/`take`). -/
def matchedAuthors (s : Store) (f : AuthorFilters) : List AuthorRec :=
  (sortByKey AuthorRec.id s.authors).filter (authorMatches f)

/-- Embeds `getAllAuthors` (src/database.js): filter, order by
ascending id, slice, and return `total` as the length of the returned
page. -/
def getAllAuthors (s : Store) (f : AuthorFilters) : AuthorsResult :=
  let authors := takeOpt f.limit (dropOpt f.offset (matchedAuthors s f))
  { authors := authors, total := authors.length, limit := f.limit, offset := f.offset }

/-! ### Concrete stores, bodies and queries used by counterexamples and witnesses -/

/-- A store with one authorless paper and one unlinked author. -/
def storeAuthorless : Store :=
  ⟨[⟨1, "t", "v", 2000⟩], [⟨1, "A", none, none⟩], [], 2, 2⟩

/-- A store where author 1 is the sole author of paper 1 and author 2 is
a co-author nowhere. -/
def storeSole : Store :=
  ⟨[⟨1, "t", "v", 2000⟩], [⟨1, "A", none, none⟩, ⟨2, "B", none, none⟩], [(1, 1)], 2, 3⟩

/-- Three papers, no filters beyond pagination. -/
def storeThree : Store :=
  ⟨[⟨1, "t1", "v", 2001⟩, ⟨2, "t2", "v", 2001⟩, ⟨3, "t3", "v", 2001⟩], [], [], 4, 1⟩

/-- The `limit=2&offset=1` filter set. -/
def filtersPage : PaperFilters := ⟨none, none, none, some 2, some 1⟩

/-- One paper with one author named Alice. -/
def storeAlice : Store :=
  ⟨[⟨1, "t", "v", 2001⟩], [⟨1, "Alice", none, none⟩], [(1, 1)], 2, 2⟩

/-- A paper body with an invalid (null) title and a `null` entry inside
the authors array. -/
def bodyNullishAuthor : PaperBody :=
  ⟨.jnull, .jstr "VLDB", .jnum ⟨2000, 1⟩, .jarr [.jnull]⟩

/-- A body violating every field rule, with well-formed (non-nullish)
author entries. -/
def bodyAllWrong : PaperBody :=
  ⟨.jnull, .undefined, .jnum ⟨1900, 1⟩, .jarr [.jobj [("name", .jstr " ")], .jobj []]⟩

/-- Claim-side author identity, from the spec text: name, email and
affiliation all exactly equal, where a null-or-absent candidate field
equals only a NULL stored field. -/
def specTupleEq (c : AuthorInput) (a : AuthorRec) : Bool :=
  a.name == c.name && a.email == c.email.toOpt && a.affiliation == c.affiliation.toOpt

/-- A store holding one author whose email is present. -/
def storeEmailX : Store :=
  ⟨[], [⟨1, "A", some "x", none⟩], [], 1, 2⟩

/-- A candidate with the same name and absent email/affiliation. -/
def candAbsent : AuthorInput :=
  ⟨"A", JField.undefined, JField.undefined⟩

/-- A store holding one fully-specified author. -/
def storeFull : Store :=
  ⟨[], [⟨1, "B", some "e", some "u"⟩], [], 1, 2⟩

/-- A candidate exactly matching the author of `storeFull`. -/
def candFull : AuthorInput :=
  ⟨"B", JField.jstr "e", JField.jstr "u"⟩

/-- `candFull` with one field changed. -/
def candFull2 : AuthorInput :=
  ⟨"B", JField.jstr "f", JField.jstr "u"⟩

/-- The paper row of `storeAlice`. -/
def paperAlice : PaperRec := ⟨1, "t", "v", 2001⟩

/-! ### List helper lemmas -/

theorem mem_insertByKey {α : Type} (key : α → Nat) (a x : α) (l : List α) :
    x ∈ insertByKey key a l ↔ x = a ∨ x ∈ l := by
  induction l with
  | nil => simp [insertByKey]
  | cons b r ih =>
    simp only [insertByKey]
    split
    · simp [List.mem_cons]
    · simp [List.mem_cons, ih]
      tauto

theorem mem_sortByKey {α : Type} (key : α → Nat) (x : α) (l : List α) :
    x ∈ sortByKey key l ↔ x ∈ l := by
  induction l with
  | nil => simp [sortByKey]
  | cons b r ih => simp [sortByKey, mem_insertByKey, ih]

theorem length_insertByKey {α : Type} (key : α → Nat) (a : α) (l : List α) :
    (insertByKey key a l).length = l.length + 1 := by
  induction l with
  | nil => rfl
  | cons b r ih =>
    simp only [insertByKey]
    split
    · rfl
    · simp [ih]

theorem length_sortByKey {α : Type} (key : α → Nat) (l : List α) :
    (sortByKey key l).length = l.length := by
  induction l with
  | nil => rfl
  | cons b r ih => simp [sortByKey, length_insertByKey, ih]

/-! ### C10: the deletion guard treats an authorless paper as making any
target a sole author -/

/-- C10: whenever some paper in the store has no linked author at all,
`deleteAuthor` refuses every deletion request — for any target id,
including authors with no link to that paper — with the sole-author
constraint error, leaving the store unchanged, because `authors:
every id` is vacuously satisfied by an authorless paper. -/
theorem deleteAuthor_refuses_with_authorless_paper
    (s : Store) (p : PaperRec) (aid : Nat)
    (hp : p ∈ s.papers) (hno : linkedAuthorIds s p.id = []) :
    deleteAuthor s aid =
      (s, .error (.constraint "Cannot delete author: they are the only author of one or more papers")) := by
  unfold deleteAuthor
  have hmem : p ∈ s.papers.filter (fun q => (linkedAuthorIds s q.id).all (fun x => x == aid)) := by
    rw [List.mem_filter]
    exact ⟨hp, by rw [hno]; rfl⟩
  have hlen : 0 < (s.papers.filter (fun q => (linkedAuthorIds s q.id).all (fun x => x == aid))).length :=
    List.length_pos.mpr (fun hemp => by rw [hemp] at hmem; simp at hmem)
  rw [if_pos hlen]

/-- Witness for C10 at a concrete store: paper 1 has no authors, and the
deletion of the (unrelated, unlinked) author 1 is refused. -/
theorem deleteAuthor_refuses_with_authorless_paper_witness :
    deleteAuthor storeAuthorless 1 =
      (storeAuthorless, .error (.constraint "Cannot delete author: they are the only author of one or more papers")) :=
  deleteAuthor_refuses_with_authorless_paper storeAuthorless ⟨1, "t", "v", 2000⟩ 1
    (by decide) (by decide)

/-! ### C2: the sole-author deletion guard -/

/-- C2 counterexample: in `storeAuthorless` author 1 is not the sole
(indeed not even a linked) author of any paper, yet `deleteAuthor`
refuses the deletion and removes nothing — contradicting the claim
that a non-sole author is always removed. -/
theorem deleteAuthor_not_sole_counterexample :
    (∀ p ∈ storeAuthorless.papers,
      ¬(1 ∈ linkedAuthorIds storeAuthorless p.id ∧
        ∀ x ∈ linkedAuthorIds storeAuthorless p.id, x = 1)) ∧
    (deleteAuthor storeAuthorless 1).2 ≠ .ok () ∧
    (deleteAuthor storeAuthorless 1).1 = storeAuthorless := by decide

/-- C2 (amended): deleting an author that is the only linked author of
at least one paper fails with the constraint error and leaves the store
unchanged; and deleting an existing author succeeds — removing exactly
the author row and its links — provided every paper of the store keeps
a linked author different from the target (a proviso that in particular
excludes stores containing an authorless paper, on which the vacuous
`every` guard refuses all deletions). -/
theorem deleteAuthor_guard_spec :
    (∀ (s : Store) (aid : Nat),
      (∃ p ∈ s.papers, aid ∈ linkedAuthorIds s p.id ∧
        ∀ x ∈ linkedAuthorIds s p.id, x = aid) →
      deleteAuthor s aid =
        (s, .error (.constraint "Cannot delete author: they are the only author of one or more papers"))) ∧
    (∀ (s : Store) (aid : Nat),
      (∀ p ∈ s.papers, ∃ x ∈ linkedAuthorIds s p.id, x ≠ aid) →
      (∃ a ∈ s.authors, a.id = aid) →
      deleteAuthor s aid =
        ({ s with authors := s.authors.filter (fun a => a.id ≠ aid),
                  links := s.links.filter (fun l => l.2 ≠ aid) }, .ok ())) := by
  constructor
  · rintro s aid ⟨p, hp, hmem, hall⟩
    unfold deleteAuthor
    have hmem2 : p ∈ s.papers.filter (fun q => (linkedAuthorIds s q.id).all (fun x => x == aid)) := by
      rw [List.mem_filter]
      refine ⟨hp, ?_⟩
      rw [List.all_eq_true]
      intro x hx
      simpa using hall x hx
    rw [if_pos (List.length_pos.mpr (fun hemp => by rw [hemp] at hmem2; simp at hmem2))]
  · rintro s aid hno ⟨a, ha, haid⟩
    unfold deleteAuthor
    have hfil : s.papers.filter (fun q => (linkedAuthorIds s q.id).all (fun x => x == aid)) = [] := by
      rw [List.filter_eq_nil_iff]
      intro p hp
      obtain ⟨x, hx, hne⟩ := hno p hp
      intro hall
      rw [List.all_eq_true] at hall
      exact hne (by simpa using hall x hx)
    rw [hfil]
    rw [if_neg (by simp)]
    have hany : s.authors.any (fun b => b.id == aid) = true := by
      rw [List.any_eq_true]
      exact ⟨a, ha, by simp [haid]⟩
    rw [if_pos hany]

/-- Witness for C2 at `storeSole`: deleting the sole author 1 is
refused; deleting the unlinked author 2 succeeds with exactly the row
and links removed. -/
theorem deleteAuthor_guard_spec_witness :
    deleteAuthor storeSole 1 =
      (storeSole, .error (.constraint "Cannot delete author: they are the only author of one or more papers")) ∧
    deleteAuthor storeSole 2 =
      ({ storeSole with authors := storeSole.authors.filter (fun a => a.id ≠ 2),
                        links := storeSole.links.filter (fun l => l.2 ≠ 2) }, .ok ()) :=
  ⟨deleteAuthor_guard_spec.1 storeSole 1 (by decide),
   deleteAuthor_guard_spec.2 storeSole 2 (by decide) (by decide)⟩

/-! ### C8: deleting a paper touches nothing but the paper and its own links -/

/-- C8: deleting an existing paper succeeds, the author table is left
exactly as it was, the surviving links are exactly the links of the
other papers, and the surviving papers are exactly the other papers. -/
theorem deletePaper_frame (s : Store) (pid : Nat)
    (hex : ∃ p ∈ s.papers, p.id = pid) :
    (deletePaper s pid).2 = .ok () ∧
    (deletePaper s pid).1.authors = s.authors ∧
    (∀ l, l ∈ (deletePaper s pid).1.links ↔ l ∈ s.links ∧ l.1 ≠ pid) ∧
    (∀ p, p ∈ (deletePaper s pid).1.papers ↔ p ∈ s.papers ∧ p.id ≠ pid) := by
  obtain ⟨p, hp, he⟩ := hex
  have hany : s.papers.any (fun q => q.id == pid) = true := by
    rw [List.any_eq_true]
    exact ⟨p, hp, by simp [he]⟩
  unfold deletePaper
  rw [if_pos hany]
  refine ⟨rfl, rfl, ?_, ?_⟩
  · intro l
    simp [List.mem_filter]
  · intro q
    simp [List.mem_filter]

/-- Witness for C8 at `storeAlice`: deleting paper 1 succeeds, keeps
the author, and the link membership equivalence holds at the

link `(2, 1)`. -/
theorem deletePaper_frame_witness :
    (deletePaper storeAlice 1).2 = .ok () ∧
    (deletePaper storeAlice 1).1.authors = storeAlice.authors ∧
    ((2, 1) ∈ (deletePaper storeAlice 1).1.links ↔ (2, 1) ∈ storeAlice.links ∧ (2 : Nat) ≠ 1) := by
  have h := deletePaper_frame storeAlice 1 ⟨paperAlice, by decide, by decide⟩
  exact ⟨h.1, h.2.1, h.2.2.1 (2, 1)⟩

/-! ### C4: paper update replaces the author link set -/

theorem resolveAuthor_papers (s : Store) (c : AuthorInput) :
    (resolveAuthor s c).1.papers = s.papers := by
  unfold resolveAuthor
  split <;> rfl

theorem resolveAuthors_papers (s : Store) (cs : List AuthorInput) :
    (resolveAuthors s cs).1.papers = s.papers := by
  induction cs generalizing s with
  | nil => rfl
  | cons c r ih =>
    simp only [resolveAuthors]
    rw [ih, resolveAuthor_papers]

/-- C4: updating an existing paper replaces its author links outright:
afterwards an author is linked to the paper exactly when it is one of
the ids resolved from the new input list, whatever the prior links
were. -/
theorem updatePaper_replaces (s : Store) (pid : Nat) (pd : PaperData)
    (hex : ∃ p ∈ s.papers, p.id = pid) :
    (updatePaper s pid pd).2 = .ok () ∧
    (∀ a : Nat, ((pid, a) ∈ (updatePaper s pid pd).1.links ↔
      a ∈ (resolveAuthors s pd.authors).2)) := by
  obtain ⟨p, hp, he⟩ := hex
  have hany : (resolveAuthors s pd.authors).1.papers.any (fun q => q.id == pid) = true := by
    rw [resolveAuthors_papers, List.any_eq_true]
    exact ⟨p, hp, by simp [he]⟩
  unfold updatePaper
  rw [if_pos hany]
  refine ⟨rfl, ?_⟩
  intro a
  simp only [List.mem_append, List.mem_filter, List.mem_map, List.mem_dedup]
  constructor
  · rintro (⟨_, hne⟩ | ⟨b, hb, hba⟩)
    · simp at hne
    · obtain ⟨h1, h2⟩ := Prod.mk.injEq .. ▸ hba
      exact h2 ▸ hb
  · intro hmem
    exact Or.inr ⟨a, hmem, rfl⟩

/-- Witness for C4: updating paper 1 of `storeSole` (previously linked
to author 1) with a fresh author list; the link equivalence is
instantiated at the resolved id 3 and the old id 1. -/
theorem updatePaper_replaces_witness :
    (updatePaper storeSole 1 ⟨"t2", "v2", 2002, [⟨"C", JField.jnull, JField.jnull⟩]⟩).2 = .ok () ∧
    ((1, 3) ∈ (updatePaper storeSole 1 ⟨"t2", "v2", 2002, [⟨"C", JField.jnull, JField.jnull⟩]⟩).1.links ↔
      3 ∈ (resolveAuthors storeSole [⟨"C", JField.jnull, JField.jnull⟩]).2) ∧
    ((1, 1) ∈ (updatePaper storeSole 1 ⟨"t2", "v2", 2002, [⟨"C", JField.jnull, JField.jnull⟩]⟩).1.links ↔
      1 ∈ (resolveAuthors storeSole [⟨"C", JField.jnull, JField.jnull⟩]).2) := by
  have h := updatePaper_replaces storeSole 1 ⟨"t2", "v2", 2002, [⟨"C", JField.jnull, JField.jnull⟩]⟩
    ⟨⟨1, "t", "v", 2000⟩, by decide, by decide⟩
  exact ⟨h.1, h.2 3, h.2 1⟩

/-! ### C1: `total` is the page length, not the full filtered count -/

/-- C1 counterexample: three matching papers with `limit=2`, `offset=1`
do return the 2nd and 3rd papers by ascending id, but `total` is 2 (the
page length), not 3 as the claim demands. -/
theorem total_counterexample :
    (getAllPapers storeThree filtersPage).papers =
      [⟨2, "t2", "v", 2001⟩, ⟨3, "t3", "v", 2001⟩] ∧
    (matchedPapers storeThree filtersPage).length = 3 ∧
    (getAllPapers storeThree filtersPage).total = 2 ∧
    (getAllPapers storeThree filtersPage).total ≠ 3 := by decide

/-- C1 (amended): for every store and validated filter set with
`limit = l` and `offset = o`, both list endpoints return as `papers` /
`authors` the slice `take l (drop o ·)` of the full filtered ordered
row set, and as `total` the length of that returned page — that is,
`min l (matched - o)` — rather than the full filtered count. -/
theorem total_is_page_length
    (s : Store) (y : Option Int) (pub : Option String) (au : Option AuthorParam)
    (nm af : Option String) (l o : Nat) :
    (getAllPapers s ⟨y, pub, au, some l, some o⟩).papers
      = ((matchedPapers s ⟨y, pub, au, some l, some o⟩).drop o).take l ∧
    (getAllPapers s ⟨y, pub, au, some l, some o⟩).total
      = min l ((matchedPapers s ⟨y, pub, au, some l, some o⟩).length - o) ∧
    (getAllAuthors s ⟨nm, af, some l, some o⟩).authors
      = ((matchedAuthors s ⟨nm, af, some l, some o⟩).drop o).take l ∧
    (getAllAuthors s ⟨nm, af, some l, some o⟩).total
      = min l ((matchedAuthors s ⟨nm, af, some l, some o⟩).length - o) := by
  refine ⟨rfl, ?_, rfl, ?_⟩
  · simp [getAllPapers, takeOpt, dropOpt]
  · simp [getAllAuthors, takeOpt, dropOpt]

/-! ### C7: multi-value author filter is an AND of substring searches -/

theorem mem_getAllPapers_noSlice (s : Store) (f : PaperFilters) (p : PaperRec)
    (hl : f.limit = none) (ho : f.offset = none) :
    p ∈ (getAllPapers s f).papers ↔ p ∈ s.papers ∧ paperMatches s f p = true := by
  simp [getAllPapers, takeOpt, dropOpt, hl, ho, matchedPapers, List.mem_filter, mem_sortByKey]

theorem hasAuthorMatching_iff (s : Store) (pid : Nat) (v : String) :
    hasAuthorMatching s pid v = true ↔
      ∃ a ∈ s.authors, (pid, a.id) ∈ s.links ∧ substrCI v a.name = true := by
  simp [hasAuthorMatching, List.any_eq_true, List.elem_iff]

/-- C7 counterexample: with the filter given as the empty list of
values, the claim-side predicate (every value matches some author) is
vacuously true of `paperAlice`, yet the code returns no papers — the
empty-array branch selects papers with no authors instead. -/
theorem emptyAuthorFilter_counterexample :
    paperAlice ∈ storeAlice.papers ∧
    (∀ v ∈ ([] : List String), ∃ a ∈ storeAlice.authors,
      (paperAlice.id, a.id) ∈ storeAlice.links ∧ substrCI v a.name = true) ∧
    paperAlice ∉ (getAllPapers storeAlice ⟨none, none, some (.multi []), none, none⟩).papers := by
  refine ⟨by decide, by simp, by decide⟩

/-- C7 (amended): for every nonempty list of filter values, a paper is
returned exactly when each value independently matches (case-insensitive
substring) the name of some author linked to the paper; a single-string
filter is the one-value case of the same predicate.  (An empty list
instead selects the papers with no linked author.) -/
theorem authorFilter_and_semantics :
    (∀ (s : Store) (p : PaperRec) (vs : List String), vs ≠ [] →
      (p ∈ (getAllPapers s ⟨none, none, some (.multi vs), none, none⟩).papers ↔
        p ∈ s.papers ∧ ∀ v ∈ vs, ∃ a ∈ s.authors,
          (p.id, a.id) ∈ s.links ∧ substrCI v a.name = true)) ∧
    (∀ (s : Store) (p : PaperRec) (v : String),
      p ∈ (getAllPapers s ⟨none, none, some (.single v), none, none⟩).papers ↔
        p ∈ (getAllPapers s ⟨none, none, some (.multi [v]), none, none⟩).papers) := by
  constructor
  · intro s p vs hne
    rw [mem_getAllPapers_noSlice s _ p rfl rfl]
    cases vs with
    | nil => exact absurd rfl hne
    | cons v r =>
      simp [paperMatches, List.all_eq_true, hasAuthorMatching_iff]
  · intro s p v
    rw [mem_getAllPapers_noSlice s _ p rfl rfl, mem_getAllPapers_noSlice s _ p rfl rfl]
    simp [paperMatches, hasAuthorMatching_iff]

/-- Witness for C7: both values `ali` and `ICE` match the author Alice
of paper 1, so the paper passes the two-value AND filter. -/
theorem authorFilter_and_semantics_witness :
    paperAlice ∈ (getAllPapers storeAlice
      ⟨none, none, some (.multi ["ali", "ICE"]), none, none⟩).papers :=
  (authorFilter_and_semantics.1 storeAlice paperAlice ["ali", "ICE"] (by decide)).mpr
    ⟨by decide, by decide⟩

/-! ### C5: id validation accepts every `Number`-integer form -/

theorem isJsWs_eq_false_of_digit (c : Char) (h : isDigitChar c = true) : isJsWs c = false := by
  simp only [isDigitChar, Bool.and_eq_true, decide_eq_true_eq] at h
  simp only [isJsWs, Bool.or_eq_false_iff, beq_eq_false_iff_ne, ne_eq]
  omega

theorem dropWhile_ws_of_digits (m : List Char) (hm : ∀ c ∈ m, isDigitChar c = true) :
    m.dropWhile isJsWs = m := by
  cases m with
  | nil => rfl
  | cons c r =>
    rw [List.dropWhile_cons]
    rw [isJsWs_eq_false_of_digit c (hm c (by simp))]
    simp

theorem trimWs_all_digits (l : List Char) (h : ∀ c ∈ l, isDigitChar c = true) :
    trimWs l = l := by
  unfold trimWs
  rw [dropWhile_ws_of_digits l h,
    dropWhile_ws_of_digits l.reverse (fun c hc => h c (List.mem_reverse.mp hc)),
    List.reverse_reverse]

theorem splitDigits_all_digits (l : List Char) (h : ∀ c ∈ l, isDigitChar c = true) :
    splitDigits l = (l, []) := by
  induction l with
  | nil => rfl
  | cons c r ih =>
    unfold splitDigits
    rw [if_pos (h c (by simp))]
    rw [ih (fun x hx => h x (by simp [hx]))]

theorem parseUnsignedDec_digits (l : List Char) (hne : l ≠ [])
    (h : ∀ c ∈ l, isDigitChar c = true) :
    parseUnsignedDec l = some ⟨(natOfDigits l : Int), 1⟩ := by
  have hinf : (l == "Infinity".data) = false := by
    rw [beq_eq_false_iff_ne]
    intro he
    have hI : isDigitChar 'I' = true := h 'I' (by rw [he]; decide)
    exact absurd hI (by decide)
  obtain ⟨c, r, rfl⟩ : ∃ c r, l = c :: r := by
    cases l with
    | nil => exact absurd rfl hne
    | cons c r => exact ⟨c, r, rfl⟩
  unfold parseUnsignedDec
  rw [hinf]
  simp only [Bool.false_eq_true, if_false]
  rw [splitDigits_all_digits _ h]
  simp

theorem jsSigned_digits (l : List Char) (hne : l ≠ [])
    (h : ∀ c ∈ l, isDigitChar c = true) :
    jsSigned l = some ⟨(natOfDigits l : Int), 1⟩ := by
  obtain ⟨c, r, rfl⟩ : ∃ c r, l = c :: r := by
    cases l with
    | nil => exact absurd rfl hne
    | cons c r => exact ⟨c, r, rfl⟩
  have hc := h c (by simp)
  have h1 : (c == '-') = false := by
    rw [beq_eq_false_iff_ne]
    intro he
    rw [he] at hc
    exact absurd hc (by decide)
  have h2 : (c == '+') = false := by
    rw [beq_eq_false_iff_ne]
    intro he
    rw [he] at hc
    exact absurd hc (by decide)
  simp only [jsSigned]
  rw [h1, h2]
  simp only [Bool.false_eq_true, if_false]
  exact parseUnsignedDec_digits _ hne h

theorem jsStrToNum_digits (l : List Char) (hne : l ≠ [])
    (h : ∀ c ∈ l, isDigitChar c = true) :
    jsStrToNum l = some ⟨(natOfDigits l : Int), 1⟩ := by
  cases l with
  | nil => exact absurd rfl hne
  | cons c1 t =>
    cases t with
    | nil => exact jsSigned_digits _ hne h
    | cons c2 r =>
      have hc2 := h c2 (by simp)
      have hfalse : ∀ d : Char, isDigitChar d = false → (c2 == d) = false := by
        intro d hd
        rw [beq_eq_false_iff_ne]
        intro he
        rw [he] at hc2
        rw [hc2] at hd
        exact Bool.noConfusion hd
      simp only [jsStrToNum]
      rw [hfalse 'x' (by decide), hfalse 'X' (by decide), hfalse 'o' (by decide),
        hfalse 'O' (by decide), hfalse 'b' (by decide), hfalse 'B' (by decide)]
      simp only [Bool.or_false, Bool.and_false, Bool.false_eq_true, if_false]
      exact jsSigned_digits _ hne h

theorem jsNumber_digits (l : List Char) (hne : l ≠ [])
    (h : ∀ c ∈ l, isDigitChar c = true) :
    jsNumber (String.mk l) = some ⟨(natOfDigits l : Int), 1⟩ := by
  unfold jsNumber
  have hdata : (String.mk l).data = l := rfl
  rw [hdata, trimWs_all_digits l h]
  have hemp : l.isEmpty = false := by
    cases l with
    | nil => exact absurd rfl hne
    | cons c r => rfl
  simp only [hemp, Bool.false_eq_true, if_false]
  exact jsStrToNum_digits l hne h

/-- C5 counterexample: the id string `" 1"` has a leading non-numeric
character (a space), so the claim's iff demands rejection; the code
accepts it because `Number` trims whitespace. -/
theorem validateResourceId_counterexample :
    validateResourceId " 1" = .ok 1 ∧ specIdOk " 1" = false := by decide

/-- C5 (amended): the request proceeds exactly when `Number(id)` is an
integer greater than zero.  On plain digit strings this is the claim's
predicate (positive value accepts, zero rejects), and the boundary
examples behave as claimed — but leading/trailing whitespace, a leading
sign, an exponent or a radix prefix are also accepted whenever the
numeric value is a positive integer, so the claimed ban on all
non-numeric leading/trailing characters does not hold. -/
theorem validateResourceId_spec :
    (∀ l : List Char, l ≠ [] → (∀ c ∈ l, isDigitChar c = true) →
      (0 < natOfDigits l → validateResourceId (String.mk l) = .ok (natOfDigits l)) ∧
      (natOfDigits l = 0 → validateResourceId (String.mk l) = .error "Invalid ID format")) ∧
    validateResourceId "0" = .error "Invalid ID format" ∧
    validateResourceId "-1" = .error "Invalid ID format" ∧
    validateResourceId "3.14" = .error "Invalid ID format" ∧
    validateResourceId "1aaa" = .error "Invalid ID format" ∧
    validateResourceId "1" = .ok 1 ∧
    validateResourceId " 12 " = .ok 12 ∧
    validateResourceId "+2" = .ok 2 ∧
    validateResourceId "1e2" = .ok 100 := by
  refine ⟨?_, by decide, by decide, by decide, by decide, by decide, by decide, by decide, by decide⟩
  intro l hne h
  unfold validateResourceId
  rw [jsNumber_digits l hne h]
  have hint : jsIsInteger ⟨(natOfDigits l : Int), 1⟩ = true := by
    simp [jsIsInteger]
  constructor
  · intro hpos
    have hgt : JsNum.gtInt ⟨(natOfDigits l : Int), 1⟩ 0 = true := by
      simp only [JsNum.gtInt, decide_eq_true_eq]
      omega
    simp only [hint, hgt, Bool.and_self, if_true]
    simp [JsNum.toInt]
  · intro h0
    have hgt : JsNum.gtInt ⟨(natOfDigits l : Int), 1⟩ 0 = false := by
      simp only [JsNum.gtInt, decide_eq_false_iff_not]
      omega
    simp [hint, hgt]

/-- Witness for C5: the all-digit string `5` is accepted with value 5. -/
theorem validateResourceId_spec_witness :
    validateResourceId (String.mk ['5']) = .ok (natOfDigits ['5']) :=
  (validateResourceId_spec.1 ['5'] (by decide) (by decide)).1 (by decide)

/-! ### C9: limit and offset validation -/

theorem applyExp_den_pos (m : Int) (d : Nat) (e : Int) (hd : 0 < d) :
    0 < (applyExp m d e).den := by
  unfold applyExp
  split
  · exact hd
  · exact Nat.mul_pos hd (Nat.pow_pos (by norm_num))

theorem parseUnsignedDec_den_pos (l : List Char) (x : JsNum)
    (h : parseUnsignedDec l = some x) : 0 < x.den := by
  unfold parseUnsignedDec at h
  dsimp only at h
  split at h
  · exact absurd h (by simp)
  · split at h
    · split at h
      · exact absurd h (by simp)
      · injection h with h
        rw [← h]
        norm_num
    · split at h
      · exact absurd h (by simp)
      · split at h
        · injection h with h
          rw [← h]
          exact Nat.pow_pos (by norm_num)
        · rcases Option.map_eq_some'.mp h with ⟨e, _, rfl⟩
          exact applyExp_den_pos _ _ _ (Nat.pow_pos (by norm_num))
        · rcases Option.map_eq_some'.mp h with ⟨e, _, rfl⟩
          exact applyExp_den_pos _ _ _ (Nat.pow_pos (by norm_num))
        · exact absurd h (by simp)
    · split at h
      · exact absurd h (by simp)
      · rcases Option.map_eq_some'.mp h with ⟨e, _, rfl⟩
        exact applyExp_den_pos _ _ _ (by norm_num)
    · split at h
      · exact absurd h (by simp)
      · rcases Option.map_eq_some'.mp h with ⟨e, _, rfl⟩
        exact applyExp_den_pos _ _ _ (by norm_num)
    · exact absurd h (by simp)

theorem jsSigned_den_pos (l : List Char) (x : JsNum)
    (h : jsSigned l = some x) : 0 < x.den := by
  unfold jsSigned at h
  split at h
  · exact absurd h (by simp)
  · split at h
    · rcases Option.map_eq_some'.mp h with ⟨y, hy, rfl⟩
      exact parseUnsignedDec_den_pos _ y hy
    · split at h
      · exact parseUnsignedDec_den_pos _ _ h
      · exact parseUnsignedDec_den_pos _ _ h

theorem jsStrToNum_den_pos (l : List Char) (x : JsNum)
    (h : jsStrToNum l = some x) : 0 < x.den := by
  unfold jsStrToNum at h
  split at h
  · split at h
    · rcases Option.map_eq_some'.mp h with ⟨n, _, rfl⟩
      norm_num
    · split at h
      · rcases Option.map_eq_some'.mp h with ⟨n, _, rfl⟩
        norm_num
      · split at h
        · rcases Option.map_eq_some'.mp h with ⟨n, _, rfl⟩
          norm_num
        · exact jsSigned_den_pos _ _ h
  · exact jsSigned_den_pos _ _ h

theorem jsNumber_den_pos (s : String) (x : JsNum)
    (h : jsNumber s = some x) : 0 < x.den := by
  unfold jsNumber at h
  dsimp only at h
  split at h
  · injection h with h
    rw [← h]
    norm_num
  · exact jsStrToNum_den_pos _ _ h

/-- On an integer value with a positive denominator, `0 < x` and
`1 ≤ x` agree. -/
theorem gtInt_zero_eq_geInt_one (x : JsNum) (hd : 0 < x.den)
    (hi : jsIsInteger x = true) : x.gtInt 0 = x.geInt 1 := by
  simp only [jsIsInteger, beq_iff_eq] at hi
  obtain ⟨k, hk⟩ : (x.den : Int) ∣ x.num := Int.dvd_of_emod_eq_zero hi
  have hd2 : (0 : Int) < (x.den : Int) := by exact_mod_cast hd
  simp only [JsNum.gtInt, JsNum.geInt]
  rw [hk, decide_eq_decide]
  constructor
  · intro h0
    have hkpos : 0 < k := by nlinarith
    nlinarith
  · intro h1
    nlinarith

theorem validateOffset_eq_specOffsetRes (o : Option String) :
    validateOffset o = specOffsetRes o := by
  cases o <;> rfl

theorem validateLimit_eq_specLimitRes (o : Option String) :
    validateLimit o = specLimitRes o := by
  cases o with
  | none => rfl
  | some s =>
    cases hjs : jsNumber s with
    | none => simp [validateLimit, specLimitRes, hjs]
    | some x =>
      cases hi : jsIsInteger x with
      | false => simp [validateLimit, specLimitRes, hjs, hi]
      | true =>
        have hg := gtInt_zero_eq_geInt_one x (jsNumber_den_pos s x hjs) hi
        simp only [validateLimit, specLimitRes, hjs, hi, hg]
        cases x.geInt 1 <;> cases x.leInt 100 <;> simp

/-- C9: when paper query validation succeeds, the validated `limit` is
the parsed value of a present parameter — accepted exactly when it is
an integer in `[1, 100]` — and 10 when absent, and the validated
`offset` is likewise the parsed non-negative integer or 0; and whenever
a present `limit` or `offset` violates those rules the whole request is
rejected with the single generic message, so no query runs. -/
theorem queryParams_limit_offset_spec (q : PaperQuery) :
    (∀ v, validatePaperQueryParams q = .ok v →
      some v.limit = specLimitRes q.limit ∧ some v.offset = specOffsetRes q.offset) ∧
    ((specLimitRes q.limit = none ∨ specOffsetRes q.offset = none) →
      validatePaperQueryParams q = .error "Invalid query parameter format") := by
  simp only [validatePaperQueryParams]
  rw [validateLimit_eq_specLimitRes, validateOffset_eq_specOffsetRes]
  constructor
  · intro v hv
    split at hv
    · exact absurd hv (by simp)
    · split at hv
      · exact absurd hv (by simp)
      · split at hv
        · exact absurd hv (by simp)
        · split at hv
          · exact absurd hv (by simp)
          · split at hv
            · exact absurd hv (by simp)
            · injection hv with hv
              rw [← hv]
              exact ⟨by simp_all, by simp_all⟩
  · intro h
    split
    · rename_i e heq
      have he : e = "Invalid query parameter format" := by
        split at heq
        · exact absurd heq (by simp)
        · split at heq
          · split at heq
            · exact absurd heq (by simp)
            · exact (Except.error.inj heq).symm
          · exact (Except.error.inj heq).symm
      rw [he]
    · split
      · rfl
      · split
        · rfl
        · split
          · rfl
          · split
            · rfl
            · rcases h with h | h <;> simp_all

/-- Witness for C9: a present `limit=200` is outside `[1, 100]`, and the
request is rejected with the generic message. -/
theorem queryParams_limit_offset_spec_witness :
    validatePaperQueryParams ⟨none, none, none, some "200", none⟩ =
      .error "Invalid query parameter format" :=
  (queryParams_limit_offset_spec ⟨none, none, none, some "200", none⟩).2
    (Or.inl (by decide))

/-! ### C6: paper body validation -/

theorem getProp_not_nullish (v : JSVal) (k : String)
    (h1 : isNull v = false) (h2 : isUndef v = false) :
    getProp v k = .ok (jsPropOrUndef v k) := by
  cases v <;> simp_all [getProp, jsPropOrUndef, isNull, isUndef]

theorem authorNamesMsgs_no_nullish (l : List JSVal) (h : hasNullishElem l = false) :
    authorNamesMsgs l =
      .ok (if l.all (fun a => isNonEmptyStringAfterTrim (jsPropOrUndef a "name")) then []
           else ["Author name is required"]) := by
  induction l with
  | nil => rfl
  | cons v r ih =>
    simp only [hasNullishElem, List.any_cons, Bool.or_eq_false_iff] at h
    have hnn := getProp_not_nullish v "name" h.1.1 h.1.2
    simp only [authorNamesMsgs, hnn]
    cases hname : isNonEmptyStringAfterTrim (jsPropOrUndef v "name") with
    | false => simp [List.all_cons, hname]
    | true =>
      have hr := ih (by simpa [hasNullishElem] using h.2)
      simp [List.all_cons, hname, hr]

theorem nullOrBlank (v : JSVal) :
    (isNull v || !isNonEmptyStringAfterTrim v) = !isNonEmptyStringAfterTrim v := by
  cases v <;> rfl

theorem scalarErrs_eq (b : PaperBody) :
    scalarErrs b =
      specTitleMsgs b.title ++ specVenueMsgs b.publishedIn ++ specYearMsgs b.year := by
  obtain ⟨t, pv, y, au⟩ := b
  simp only [scalarErrs, nullOrBlank]
  cases hT : isNonEmptyStringAfterTrim t <;>
    cases hP : isNonEmptyStringAfterTrim pv <;>
      cases y <;>
        simp [specTitleMsgs, specVenueMsgs, specYearMsgs, hT, hP, isNull, isUndef] <;>
          split <;> simp_all

theorem mem_specTitleMsgs (x : String) (v : JSVal) (h : x ∈ specTitleMsgs v) :
    x = "Title is required" := by
  unfold specTitleMsgs at h
  split at h <;> simp_all

theorem mem_specVenueMsgs (x : String) (v : JSVal) (h : x ∈ specVenueMsgs v) :
    x = "Published venue is required" := by
  unfold specVenueMsgs at h
  split at h <;> simp_all

theorem mem_specYearMsgs (x : String) (v : JSVal) (h : x ∈ specYearMsgs v) :
    x = "Published year is required" ∨ x = "Valid year after 1900 is required" := by
  unfold specYearMsgs at h
  split at h
  · simp_all
  · simp_all
  · split at h <;> simp_all

theorem mem_specAuthorsMsgs (x : String) (v : JSVal) (h : x ∈ specAuthorsMsgs v) :
    x = "At least one author is required" ∨ x = "Author name is required" := by
  unfold specAuthorsMsgs at h
  split at h
  · simp_all
  · split at h <;> simp_all
  · simp_all

theorem specYearMsgs_not_both (v : JSVal) :
    ¬("Published year is required" ∈ specYearMsgs v ∧
      "Valid year after 1900 is required" ∈ specYearMsgs v) := by
  unfold specYearMsgs
  split
  · decide
  · decide
  · split <;> decide

theorem count_specAuthorsMsgs (v : JSVal) :
    (specAuthorsMsgs v).count "Author name is required" ≤ 1 := by
  unfold specAuthorsMsgs
  split
  · decide
  · split <;> decide
  · decide

/-- C6 counterexample: `bodyNullishAuthor` has a title violation, but
instead of collecting it the validator throws (the `null` entry of
`authors` cannot be destructured), so no message list is produced. -/
theorem validatePaperInput_counterexample :
    validatePaperInput bodyNullishAuthor = .error () ∧
    specTitleMsgs bodyNullishAuthor.title = ["Title is required"] := by
  refine ⟨rfl, rfl⟩

/-- C6 (amended): for every raw paper body whose authors field, when it
is a list, contains no `null`/`undefined` element, `validatePaperInput`
collects the violations as `title ++ venue ++ year ++ authors` with
each part depending only on its own field (fixed order, no cross-field
short-circuit); the two year messages are mutually exclusive;
`Author name is required` occurs at most once (the author loop stops at
the first blank name); year 1900 draws the validity message while 1901
draws neither.  A nullish authors element instead makes the validator
throw (HTTP 500) without collecting anything. -/
theorem validatePaperInput_spec (b : PaperBody)
    (h : ∀ l, b.authors = JSVal.jarr l → hasNullishElem l = false) :
    validatePaperInput b =
      .ok (specTitleMsgs b.title ++ specVenueMsgs b.publishedIn ++
           specYearMsgs b.year ++ specAuthorsMsgs b.authors) ∧
    (∀ msgs, validatePaperInput b = .ok msgs →
      ¬("Published year is required" ∈ msgs ∧ "Valid year after 1900 is required" ∈ msgs) ∧
      msgs.count "Author name is required" ≤ 1 ∧
      (b.year = .jnum ⟨1900, 1⟩ → "Valid year after 1900 is required" ∈ msgs) ∧
      (b.year = .jnum ⟨1901, 1⟩ → "Published year is required" ∉ msgs ∧
        "Valid year after 1900 is required" ∉ msgs)) := by
  obtain ⟨t, pv, y, au⟩ := b
  have heq : validatePaperInput ⟨t, pv, y, au⟩ =
      .ok (specTitleMsgs t ++ specVenueMsgs pv ++ specYearMsgs y ++ specAuthorsMsgs au) := by
    unfold validatePaperInput
    dsimp only
    rw [scalarErrs_eq]
    cases au with
    | jarr l =>
      cases l with
      | nil => simp [specAuthorsMsgs]
      | cons v r =>
        have hnn := h (v :: r) rfl
        dsimp only
        rw [authorNamesMsgs_no_nullish _ hnn]
        simp [specAuthorsMsgs]
    | undefined => simp [specAuthorsMsgs]
    | jnull => simp [specAuthorsMsgs]
    | jstr s => simp [specAuthorsMsgs]
    | jnum x => simp [specAuthorsMsgs]
    | jbool bo => simp [specAuthorsMsgs]
    | jobj fs => simp [specAuthorsMsgs]
  refine ⟨heq, ?_⟩
  intro msgs hm
  rw [heq] at hm
  injection hm with hm
  subst hm
  refine ⟨?_, ?_, ?_, ?_⟩
  · rintro ⟨hP, hV⟩
    simp only [List.mem_append] at hP hV
    have hP2 : "Published year is required" ∈ specYearMsgs y := by
      rcases hP with ((h1 | h1) | h1) | h1
      · exact absurd (mem_specTitleMsgs _ _ h1) (by decide)
      · exact absurd (mem_specVenueMsgs _ _ h1) (by decide)
      · exact h1
      · rcases mem_specAuthorsMsgs _ _ h1 with h2 | h2 <;> exact absurd h2 (by decide)
    have hV2 : "Valid year after 1900 is required" ∈ specYearMsgs y := by
      rcases hV with ((h1 | h1) | h1) | h1
      · exact absurd (mem_specTitleMsgs _ _ h1) (by decide)
      · exact absurd (mem_specVenueMsgs _ _ h1) (by decide)
      · exact h1
      · rcases mem_specAuthorsMsgs _ _ h1 with h2 | h2 <;> exact absurd h2 (by decide)
    exact specYearMsgs_not_both y ⟨hP2, hV2⟩
  · have c1 : (specTitleMsgs t).count "Author name is required" = 0 :=
      List.count_eq_zero.mpr (fun h1 => absurd (mem_specTitleMsgs _ _ h1) (by decide))
    have c2 : (specVenueMsgs pv).count "Author name is required" = 0 :=
      List.count_eq_zero.mpr (fun h1 => absurd (mem_specVenueMsgs _ _ h1) (by decide))
    have c3 : (specYearMsgs y).count "Author name is required" = 0 :=
      List.count_eq_zero.mpr (fun h1 => by
        rcases mem_specYearMsgs _ _ h1 with h2 | h2 <;> exact absurd h2 (by decide))
    simp only [List.count_append, c1, c2, c3]
    simpa using count_specAuthorsMsgs au
  · intro hy
    subst hy
    have : specYearMsgs (.jnum ⟨1900, 1⟩) = ["Valid year after 1900 is required"] := by decide
    simp [List.mem_append, this]
  · intro hy
    subst hy
    have hy0 : specYearMsgs (.jnum ⟨1901, 1⟩) = [] := by decide
    constructor
    · intro hmem
      simp only [List.mem_append, hy0] at hmem
      rcases hmem with ((h1 | h1) | h1) | h1
      · exact absurd (mem_specTitleMsgs _ _ h1) (by decide)
      · exact absurd (mem_specVenueMsgs _ _ h1) (by decide)
      · simp at h1
      · rcases mem_specAuthorsMsgs _ _ h1 with h2 | h2 <;> exact absurd h2 (by decide)
    · intro hmem
      simp only [List.mem_append, hy0] at hmem
      rcases hmem with ((h1 | h1) | h1) | h1
      · exact absurd (mem_specTitleMsgs _ _ h1) (by decide)
      · exact absurd (mem_specVenueMsgs _ _ h1) (by decide)
      · simp at h1
      · rcases mem_specAuthorsMsgs _ _ h1 with h2 | h2 <;> exact absurd h2 (by decide)

/-- Witness for C6 at `bodyAllWrong`: the validator collects all four
messages in field order. -/
theorem validatePaperInput_spec_witness :
    validatePaperInput bodyAllWrong =
      .ok (specTitleMsgs bodyAllWrong.title ++ specVenueMsgs bodyAllWrong.publishedIn ++
           specYearMsgs bodyAllWrong.year ++ specAuthorsMsgs bodyAllWrong.authors) ∧
    specTitleMsgs bodyAllWrong.title ++ specVenueMsgs bodyAllWrong.publishedIn ++
        specYearMsgs bodyAllWrong.year ++ specAuthorsMsgs bodyAllWrong.authors =
      ["Title is required", "Published venue is required",
       "Valid year after 1900 is required", "Author name is required"] :=
  ⟨(validatePaperInput_spec bodyAllWrong
      (by intro l hl; injection hl with hl; rw [← hl]; rfl)).1,
    by decide⟩

/-! ### C3: author resolution -/

theorem findMinMatch_some (p : AuthorRec → Bool) (l : List AuthorRec) (a : AuthorRec)
    (h : findMinMatch p l = some a) : a ∈ l ∧ p a = true := by
  induction l generalizing a with
  | nil => exact absurd h (by simp [findMinMatch])
  | cons d r ih =>
    unfold findMinMatch at h
    cases hr : findMinMatch p r with
    | none =>
      rw [hr] at h
      dsimp only at h
      split at h
      · injection h with h
        subst h
        rename_i hc
        exact ⟨by simp, hc⟩
      · exact absurd h (by simp)
    | some c =>
      rw [hr] at h
      dsimp only at h
      split at h
      · injection h with h
        subst h
        rename_i hc
        rw [Bool.and_eq_true] at hc
        exact ⟨by simp, hc.1⟩
      · injection h with h
        subst h
        obtain ⟨h1, h2⟩ := ih c hr
        exact ⟨by simp [h1], h2⟩

theorem findMinMatch_none (p : AuthorRec → Bool) (l : List AuthorRec)
    (h : findMinMatch p l = none) : ∀ b ∈ l, p b = false := by
  induction l with
  | nil => simp
  | cons d r ih =>
    unfold findMinMatch at h
    cases hr : findMinMatch p r with
    | none =>
      rw [hr] at h
      dsimp only at h
      split at h
      · exact absurd h (by simp)
      · intro b hb
        rcases List.mem_cons.mp hb with rfl | hb2
        · rename_i hc
          simpa using hc
        · exact ih hr b hb2
    | some c =>
      rw [hr] at h
      dsimp only at h
      split at h <;> exact absurd h (by simp)

theorem findMinMatch_eq_none (p : AuthorRec → Bool) (l : List AuthorRec)
    (h : ∀ b ∈ l, p b = false) : findMinMatch p l = none := by
  cases hm : findMinMatch p l with
  | none => rfl
  | some a =>
    obtain ⟨hmem, hpa⟩ := findMinMatch_some p l a hm
    rw [h a hmem] at hpa
    exact Bool.noConfusion hpa

theorem findMinMatch_min (p : AuthorRec → Bool) (l : List AuthorRec) (a : AuthorRec)
    (h : findMinMatch p l = some a) : ∀ b ∈ l, p b = true → a.id ≤ b.id := by
  induction l generalizing a with
  | nil => exact absurd h (by simp [findMinMatch])
  | cons d r ih =>
    unfold findMinMatch at h
    cases hr : findMinMatch p r with
    | none =>
      rw [hr] at h
      dsimp only at h
      split at h
      · injection h with h
        subst h
        intro b hb hpb
        rcases List.mem_cons.mp hb with rfl | hb2
        · exact le_refl _
        · exact absurd hpb (by simp [findMinMatch_none p r hr b hb2])
      · exact absurd h (by simp)
    | some c =>
      rw [hr] at h
      dsimp only at h
      split at h
      · injection h with h
        subst h
        rename_i hc
        rw [Bool.and_eq_true] at hc
        obtain ⟨hpd, hlt⟩ := hc
        intro b hb hpb
        rcases List.mem_cons.mp hb with rfl | hb2
        · exact le_refl _
        · exact le_trans (le_of_lt (by simpa using hlt)) (ih c hr b hb2 hpb)
      · injection h with h
        subst h
        rename_i hc
        intro b hb hpb
        rcases List.mem_cons.mp hb with rfl | hb2
        · simp only [Bool.and_eq_true, decide_eq_true_eq, not_and] at hc
          exact Nat.le_of_not_lt (hc hpb)
        · exact ih c hr b hb2 hpb

theorem findMinMatch_isSome (p : AuthorRec → Bool) (l : List AuthorRec) (b : AuthorRec)
    (hb : b ∈ l) (hpb : p b = true) : ∃ a, findMinMatch p l = some a := by
  cases hm : findMinMatch p l with
  | some a => exact ⟨a, rfl⟩
  | none =>
    have hfalse := findMinMatch_none p l hm b hb
    rw [hpb] at hfalse
    exact Bool.noConfusion hfalse

theorem findMinMatch_append (p : AuthorRec → Bool) (l1 l2 : List AuthorRec)
    (h : ∀ b ∈ l1, p b = false) :
    findMinMatch p (l1 ++ l2) = findMinMatch p l2 := by
  induction l1 with
  | nil => rfl
  | cons d r ih =>
    have hd : p d = false := h d (by simp)
    simp only [List.cons_append, findMinMatch, List.append_eq]
    rw [ih (fun b hb => h b (by simp [hb]))]
    cases hfm : findMinMatch p l2 with
    | none => simp [hd]
    | some c => simp [hd]

theorem fieldMatch_toOpt (f : JField) : fieldMatch f f.toOpt = true := by
  cases f <;> simp [fieldMatch, JField.toOpt]

theorem matchesWhere_recOf (c : AuthorInput) (i : Nat) :
    matchesWhere c (recOf c i) = true := by
  simp [matchesWhere, recOf, fieldMatch_toOpt]

theorem fieldMatch_present (f : JField) (hf : f ≠ JField.undefined) (o : Option String) :
    fieldMatch f o = true ↔ o = f.toOpt := by
  cases f with
  | undefined => exact absurd rfl hf
  | jnull => cases o <;> simp [fieldMatch, JField.toOpt]
  | jstr s =>
    cases o with
    | none => simp [fieldMatch, JField.toOpt]
    | some t =>
      simp only [fieldMatch, JField.toOpt, beq_iff_eq, Option.some.injEq]
      exact eq_comm

theorem matchesWhere_exact (c : AuthorInput) (a : AuthorRec)
    (he : c.email ≠ JField.undefined) (ha : c.affiliation ≠ JField.undefined)
    (h : matchesWhere c a = true) :
    a.name = c.name ∧ a.email = c.email.toOpt ∧ a.affiliation = c.affiliation.toOpt := by
  simp only [matchesWhere, Bool.and_eq_true, beq_iff_eq] at h
  exact ⟨h.1.1, (fieldMatch_present _ he _).mp h.1.2, (fieldMatch_present _ ha _).mp h.2⟩

theorem recOf_eq_self (c : AuthorInput) (a : AuthorRec)
    (h1 : a.name = c.name) (h2 : a.email = c.email.toOpt)
    (h3 : a.affiliation = c.affiliation.toOpt) : recOf c a.id = a := by
  cases a
  simp_all [recOf]

theorem eq_of_id_mem (l : List AuthorRec) (h : (l.map AuthorRec.id).Nodup)
    (a b : AuthorRec) (ha : a ∈ l) (hb : b ∈ l) (hid : a.id = b.id) : a = b := by
  induction l with
  | nil => simp at ha
  | cons d r ih =>
    simp only [List.map_cons, List.nodup_cons] at h
    rcases List.mem_cons.mp ha with rfl | ha2 <;> rcases List.mem_cons.mp hb with rfl | hb2
    · rfl
    · exfalso
      apply h.1
      rw [hid]
      exact List.mem_map_of_mem AuthorRec.id hb2
    · exfalso
      apply h.1
      rw [← hid]
      exact List.mem_map_of_mem AuthorRec.id ha2
    · exact ih h.2 ha2 hb2

theorem resolveAuthor_WF (s : Store) (c : AuthorInput) (h : s.WF) :
    (resolveAuthor s c).1.WF := by
  unfold resolveAuthor
  cases hm : findMinMatch (matchesWhere c) s.authors with
  | some a => exact h
  | none =>
    obtain ⟨h1, h2, h3, h4⟩ := h
    refine ⟨?_, h2, ?_, h4⟩
    · rw [List.map_append]
      refine List.Nodup.append h1 (by simp) ?_
      intro x hx hy
      simp only [List.map_cons, List.map_nil, List.mem_singleton, recOf] at hy
      obtain ⟨a, ha, rfl⟩ := List.mem_map.mp hx
      have := h3 a ha
      omega
    · intro a ha
      rcases List.mem_append.mp ha with ha2 | ha2
      · exact lt_trans (h3 a ha2) (Nat.lt_succ_self _)
      · simp only [List.mem_singleton] at ha2
        rw [ha2]
        exact Nat.lt_succ_self _

theorem resolveAuthor_id_bound (s : Store) (c : AuthorInput) (h : s.WF) :
    (resolveAuthor s c).2 < (resolveAuthor s c).1.nextAuthorId := by
  unfold resolveAuthor
  cases hm : findMinMatch (matchesWhere c) s.authors with
  | some a =>
    obtain ⟨hmem, _⟩ := findMinMatch_some _ _ _ hm
    exact h.2.2.1 a hmem
  | none => exact Nat.lt_succ_self _

theorem resolveAuthor_exact_mem (s : Store) (c : AuthorInput)
    (he : c.email ≠ JField.undefined) (ha : c.affiliation ≠ JField.undefined) :
    recOf c (resolveAuthor s c).2 ∈ (resolveAuthor s c).1.authors := by
  unfold resolveAuthor
  cases hm : findMinMatch (matchesWhere c) s.authors with
  | some a =>
    obtain ⟨hmem, hmatch⟩ := findMinMatch_some _ _ _ hm
    obtain ⟨h1, h2, h3⟩ := matchesWhere_exact c a he ha hmatch
    simpa [recOf_eq_self c a h1 h2 h3] using hmem
  | none =>
    exact List.mem_append.mpr (Or.inr (by simp))

theorem resolveAuthor_eq_of_find_some (s : Store) (c : AuthorInput) (a : AuthorRec)
    (h : findMinMatch (matchesWhere c) s.authors = some a) :
    resolveAuthor s c = (s, a.id) := by
  unfold resolveAuthor
  rw [h]

theorem resolveAuthor_eq_of_find_none (s : Store) (c : AuthorInput)
    (h : findMinMatch (matchesWhere c) s.authors = none) :
    resolveAuthor s c =
      ({ s with authors := s.authors ++ [recOf c s.nextAuthorId],
                nextAuthorId := s.nextAuthorId + 1 }, s.nextAuthorId) := by
  unfold resolveAuthor
  rw [h]

/-- C3 counterexample: the candidate has an absent (undefined) email
and affiliation, the stored record 1 has email `x`; the claim-side
identity tuple rejects the pair, yet the resolver links the candidate
to record 1 — Prisma ignores an undefined filter field — instead of
creating a fresh author. -/
theorem resolveAuthor_counterexample :
    (resolveAuthor storeEmailX candAbsent).1 = storeEmailX ∧
    (resolveAuthor storeEmailX candAbsent).2 = 1 ∧
    specTupleEq candAbsent ⟨1, "A", some "x", none⟩ = false ∧
    (⟨1, "A", some "x", none⟩ : AuthorRec) ∈ storeEmailX.authors := by decide

/-- C3 (amended): the resolver links the paper to the existing record
of lowest id among those matching the candidate on every *present*
field (null matches only NULL, a string only itself, an absent field
matches anything), leaving the store unchanged; when no record matches
it creates a fresh record with exactly the candidate's fields (absent
stored as NULL) under the next id.  Resolving the identical candidate
again yields the same identifier, and — when both candidates have all
fields present — changing any one field yields a different
identifier. -/
theorem resolveAuthor_spec (s : Store) (c : AuthorInput) (hwf : s.WF) :
    ((∃ a ∈ s.authors, matchesWhere c a = true) →
      (resolveAuthor s c).1 = s ∧
      ∃ a ∈ s.authors, matchesWhere c a = true ∧ (resolveAuthor s c).2 = a.id ∧
        ∀ b ∈ s.authors, matchesWhere c b = true → a.id ≤ b.id) ∧
    ((∀ a ∈ s.authors, matchesWhere c a = false) →
      (resolveAuthor s c).1.authors = s.authors ++ [recOf c s.nextAuthorId] ∧
      (resolveAuthor s c).2 = s.nextAuthorId) ∧
    (resolveAuthor (resolveAuthor s c).1 c).2 = (resolveAuthor s c).2 ∧
    (∀ c₂ : AuthorInput,
      c.email ≠ JField.undefined → c.affiliation ≠ JField.undefined →
      c₂.email ≠ JField.undefined → c₂.affiliation ≠ JField.undefined →
      (c₂.name ≠ c.name ∨ c₂.email.toOpt ≠ c.email.toOpt ∨
        c₂.affiliation.toOpt ≠ c.affiliation.toOpt) →
      (resolveAuthor (resolveAuthor s c).1 c₂).2 ≠ (resolveAuthor s c).2) := by
  refine ⟨?_, ?_, ?_, ?_⟩
  · rintro ⟨a0, ha0, hm0⟩
    obtain ⟨amin, hmin⟩ := findMinMatch_isSome (matchesWhere c) s.authors a0 ha0 hm0
    have hr := resolveAuthor_eq_of_find_some s c amin hmin
    obtain ⟨hmem, hmatch⟩ := findMinMatch_some _ _ _ hmin
    rw [hr]
    exact ⟨rfl, amin, hmem, hmatch, rfl, findMinMatch_min _ _ _ hmin⟩
  · intro hall
    have hr := resolveAuthor_eq_of_find_none s c (findMinMatch_eq_none _ _ hall)
    rw [hr]
    exact ⟨rfl, rfl⟩
  · cases hm : findMinMatch (matchesWhere c) s.authors with
    | some a =>
      have hr := resolveAuthor_eq_of_find_some s c a hm
      rw [hr]
      dsimp only
      rw [hr]
    | none =>
      have hr := resolveAuthor_eq_of_find_none s c hm
      have hfind : findMinMatch (matchesWhere c) (s.authors ++ [recOf c s.nextAuthorId]) =
          some (recOf c s.nextAuthorId) := by
        rw [findMinMatch_append _ _ _ (findMinMatch_none _ _ hm)]
        simp [findMinMatch, matchesWhere_recOf]
      rw [hr]
      dsimp only
      rw [resolveAuthor_eq_of_find_some _ c _ hfind]
      simp [recOf]
  · intro c₂ he ha he2 ha2 hdiff heq
    have hwf1 : (resolveAuthor s c).1.WF := resolveAuthor_WF s c hwf
    have hrec := resolveAuthor_exact_mem s c he ha
    have hbound := resolveAuthor_id_bound s c hwf
    cases hm2 : findMinMatch (matchesWhere c₂) (resolveAuthor s c).1.authors with
    | some b =>
      have hr2 := resolveAuthor_eq_of_find_some (resolveAuthor s c).1 c₂ b hm2
      rw [hr2] at heq
      dsimp only at heq
      obtain ⟨hbmem, hbmatch⟩ := findMinMatch_some _ _ _ hm2
      obtain ⟨hn, hem, haf⟩ := matchesWhere_exact c₂ b he2 ha2 hbmatch
      have hbeq : b = recOf c (resolveAuthor s c).2 :=
        eq_of_id_mem _ hwf1.1 b _ hbmem hrec (by rw [heq]; rfl)
      rcases hdiff with hd | hd | hd
      · exact hd (by rw [← hn, hbeq]; rfl)
      · exact hd (by rw [← hem, hbeq]; rfl)
      · exact hd (by rw [← haf, hbeq]; rfl)
    | none =>
      have hr2 := resolveAuthor_eq_of_find_none (resolveAuthor s c).1 c₂ hm2
      rw [hr2] at heq
      dsimp only at heq
      omega

/-- Witness for C3 at `storeFull`: re-resolving the identical candidate
returns the same id, and resolving a candidate differing in the email
returns a different id. -/
theorem resolveAuthor_spec_witness :
    (resolveAuthor (resolveAuthor storeFull candFull).1 candFull).2 =
      (resolveAuthor storeFull candFull).2 ∧
    (resolveAuthor (resolveAuthor storeFull candFull).1 candFull2).2 ≠
      (resolveAuthor storeFull candFull).2 :=
  ⟨(resolveAuthor_spec storeFull candFull (by decide)).2.2.1,
   (resolveAuthor_spec storeFull candFull (by decide)).2.2.2 candFull2
     (by decide) (by decide) (by decide) (by decide) (by decide)⟩

end PaperMgmt
